import Mathlib

/-!
Verification of the core algorithms of the `roarsvg` crate (`src/lib.rs`):

* `lyon_path_to_usvg` — translation of a lyon path event stream into a
  sequence of absolute drawing commands, threading an optional current
  point and inserting repair `MoveTo`s at discontinuities;
* `LyonWriter::prepare` — transform-aware bounding-box computation:
  every node bounding box contributes its four corners, mapped through
  the global affine transform, folded into running min/max values seeded
  at `(+inf, -inf, +inf, -inf)`, from which canvas size (with a `256.0`
  fallback) and the view rectangle are derived.

Numeric values are modelled exactly: finite coordinates as rationals, and
the scalars flowing through the bounds fold as an extended-rational type
`F` with `+inf`, `-inf` and `nan`, mirroring the IEEE behaviour of the
`f32` operations the source actually performs (`min`, `max`, subtraction,
ordering) on those values.
-/

/-- A 2D point, as used by the lyon events and the usvg path builder. -/
structure Point where
  x : ℚ
  y : ℚ
deriving DecidableEq, Repr

/-- The lyon path events consumed by `lyon_path_to_usvg` (`lyon_path::Event`). -/
inductive Event where
  | Begin (at_ : Point)
  | Line (from_ to_ : Point)
  | Quadratic (from_ ctrl to_ : Point)
  | Cubic (from_ ctrl1 ctrl2 to_ : Point)
  | End (last first : Point) (close : Bool)
deriving DecidableEq, Repr

/-- The drawing commands emitted into the usvg `PathBuilder`
(`move_to`, `line_to`, `quad_to`, `cubic_to`, `close`). -/
inductive PathCommand where
  | MoveTo (p : Point)
  | LineTo (p : Point)
  | QuadTo (ctrl to_ : Point)
  | CubicTo (ctrl1 ctrl2 to_ : Point)
  | Close
deriving DecidableEq, Repr

/-- Discontinuity repair of `lyon_path_to_usvg`: the commands emitted by
`if let Some(current_point) = current { if from != current_point { move_to(from) } }`. -/
def repairMove (current : Option Point) (f : Point) : List PathCommand :=
  match current with
  | some c => if f ≠ c then [PathCommand.MoveTo f] else []
  | none => []

/-- One iteration of the event loop of `lyon_path_to_usvg`: given the
current point, returns the new current point and the commands emitted
for this event, in order. -/
def processEvent (current : Option Point) (e : Event) : Option Point × List PathCommand :=
  match e with
  | Event.Begin a => (some a, [PathCommand.MoveTo a])
  | Event.Line f t => (some t, repairMove current f ++ [PathCommand.LineTo t])
  | Event.Quadratic f c t => (some t, repairMove current f ++ [PathCommand.QuadTo c t])
  | Event.Cubic f c1 c2 t => (some t, repairMove current f ++ [PathCommand.CubicTo c1 c2 t])
  | Event.End l fst cl =>
      (some l, repairMove current l ++ (if cl then [PathCommand.LineTo fst, PathCommand.Close] else []))

/-- The whole event loop of `lyon_path_to_usvg`, started from an arbitrary
current point: the concatenation of the commands emitted for each event,
with the current point threaded through. -/
def translateFrom (current : Option Point) : List Event → List PathCommand
  | [] => []
  | e :: es => (processEvent current e).2 ++ translateFrom (processEvent current e).1 es

/-- The value of the `current` variable after the loop of `lyon_path_to_usvg`
has consumed a list of events. -/
def finalState (current : Option Point) : List Event → Option Point
  | [] => current
  | e :: es => finalState (processEvent current e).1 es

/-- Modelled from the spec: the downstream command-sequence builder
(`PathBuilder::finish`, external to this repository) merely accepts or
rejects the emitted command sequence by its own validity rule, which the
spec leaves delegated; it is therefore a parameter `accept`. -/
def builderFinish (accept : List PathCommand → Bool) (cmds : List PathCommand) :
    Option (List PathCommand) :=
  if accept cmds then some cmds else none

/-- `lyon_path_to_usvg`: run the event loop from `current = None`, then hand
the emitted commands to the downstream builder. -/
def lyon_path_to_usvg (accept : List PathCommand → Bool) (events : List Event) :
    Option (List PathCommand) :=
  builderFinish accept (translateFrom none events)

theorem translateFrom_append (cur : Option Point) (es1 es2 : List Event) :
    translateFrom cur (es1 ++ es2) =
      translateFrom cur es1 ++ translateFrom (finalState cur es1) es2 := by
  induction es1 generalizing cur with
  | nil => simp [translateFrom, finalState]
  | cons e es ih => simp [translateFrom, finalState, ih]

/-- Extended rationals modelling the exactly-representable `f32` scalars
that flow through the bounds computation of `LyonWriter::prepare`:
finite values, the two infinite fold seeds, and `nan`. -/
inductive F where
  | nan
  | pinf
  | ninf
  | fin (q : ℚ)
deriving DecidableEq, Repr

/-- IEEE `<=` on these values (`nan` compares false against everything). -/
def F.le : F → F → Bool
  | F.nan, _ => false
  | _, F.nan => false
  | F.ninf, _ => true
  | _, F.pinf => true
  | F.pinf, _ => false
  | F.fin _, F.ninf => false
  | F.fin a, F.fin b => decide (a ≤ b)

/-- IEEE `<` on these values (`nan` compares false against everything). -/
def F.lt : F → F → Bool
  | F.nan, _ => false
  | _, F.nan => false
  | F.ninf, F.ninf => false
  | F.ninf, _ => true
  | F.pinf, _ => false
  | F.fin _, F.pinf => true
  | F.fin _, F.ninf => false
  | F.fin a, F.fin b => decide (a < b)

/-- Rust `f32::min`: the smaller operand; if one operand is `nan`, the other. -/
def F.fmin (a b : F) : F :=
  match a, b with
  | F.nan, _ => b
  | _, F.nan => a
  | _, _ => if F.le a b then a else b

/-- Rust `f32::max`: the larger operand; if one operand is `nan`, the other. -/
def F.fmax (a b : F) : F :=
  match a, b with
  | F.nan, _ => b
  | _, F.nan => a
  | _, _ => if F.le a b then b else a

/-- IEEE subtraction on these values. -/
def F.sub : F → F → F
  | F.nan, _ => F.nan
  | _, F.nan => F.nan
  | F.pinf, F.pinf => F.nan
  | F.ninf, F.ninf => F.nan
  | F.pinf, _ => F.pinf
  | F.ninf, _ => F.ninf
  | F.fin _, F.pinf => F.ninf
  | F.fin _, F.ninf => F.pinf
  | F.fin a, F.fin b => F.fin (a - b)

/-- Finiteness test, as `f32::is_finite`. -/
def F.isFinite : F → Bool
  | F.fin _ => true
  | _ => false

/-- The `usvg::Transform` (tiny-skia affine transform) with its six entries. -/
structure SvgTransform where
  sx : ℚ
  kx : ℚ
  ky : ℚ
  sy : ℚ
  tx : ℚ
  ty : ℚ
deriving DecidableEq, Repr

/-- The identity transform, `Transform::default()`. -/
def SvgTransform.identity : SvgTransform := ⟨1, 0, 0, 1, 0, 0⟩

/-- `Transform::map_point`: the full affine image of a point. -/
def SvgTransform.mapPoint (t : SvgTransform) (p : Point) : Point :=
  ⟨t.sx * p.x + t.kx * p.y + t.tx, t.ky * p.x + t.sy * p.y + t.ty⟩

/-- An axis-aligned rectangle with `left/top/right/bottom` sides, standing
for both the node bounding boxes returned by `calculate_bbox` and the
`NonZeroRect` of the view box. -/
structure Rect where
  left : ℚ
  top : ℚ
  right : ℚ
  bottom : ℚ
deriving DecidableEq, Repr

/-- The accumulator `(min_x, max_x, min_y, max_y)` of the corner fold
in `LyonWriter::prepare`. -/
structure Bounds4 where
  min_x : F
  max_x : F
  min_y : F
  max_y : F
deriving DecidableEq, Repr

/-- The corner streaming stage of `LyonWriter::prepare`: for every node
with a present bounding box, its four corners `(left,top)`, `(right,top)`,
`(left,bottom)`, `(right,bottom)`, each mapped through the global transform. -/
def cornerPoints (bboxes : List (Option Rect)) (g : SvgTransform) : List Point :=
  (bboxes.filterMap id).flatMap (fun b =>
    [Point.mk b.left b.top, Point.mk b.right b.top,
     Point.mk b.left b.bottom, Point.mk b.right b.bottom].map (fun p => g.mapPoint p))

/-- One step of the min/max fold in `LyonWriter::prepare`. -/
def boundsStep (acc : Bounds4) (p : Point) : Bounds4 :=
  ⟨acc.min_x.fmin (F.fin p.x), acc.max_x.fmax (F.fin p.x),
   acc.min_y.fmin (F.fin p.y), acc.max_y.fmax (F.fin p.y)⟩

/-- The fold seed `(f32::INFINITY, f32::NEG_INFINITY, f32::INFINITY, f32::NEG_INFINITY)`. -/
def boundsSeed : Bounds4 := ⟨F.pinf, F.ninf, F.pinf, F.ninf⟩

/-- The complete corner fold of `LyonWriter::prepare`. -/
def foldCorners (bboxes : List (Option Rect)) (g : SvgTransform) : Bounds4 :=
  (cornerPoints bboxes g).foldl boundsStep boundsSeed

/-- The scalar size computation of `LyonWriter::prepare`:
`if max - min > 0.0 { max - min } else { 256.0 }`, used once for the
width and once, independently, for the height. -/
def dimension (mn mx : F) : F :=
  if F.lt (F.fin 0) (mx.sub mn) then mx.sub mn else F.fin 256

/-- Modelled from the spec: `usvg::Size::from_wh` (external to this
repository) accepts exactly finite, strictly positive width and height. -/
def sizeFromWh (w h : F) : Option (ℚ × ℚ) :=
  match w, h with
  | F.fin wq, F.fin hq => if 0 < wq ∧ 0 < hq then some (wq, hq) else none
  | _, _ => none

/-- Modelled from the spec: `NonZeroRect::from_ltrb` (external to this
repository) accepts exactly finite sides with strictly positive spans. -/
def nonZeroRectFromLtrb (l t r b : F) : Option Rect :=
  match l, t, r, b with
  | F.fin lq, F.fin tq, F.fin rq, F.fin bq =>
      if lq < rq ∧ tq < bq then some ⟨lq, tq, rq, bq⟩ else none
  | _, _, _, _ => none

/-- The error type `LyonTranslationError` (the `IoWrite` variant, which
wraps an external I/O error, is out of scope). -/
inductive LyonTranslationError where
  | WrongBoundingBox (min_x max_x min_y max_y : F)
  | NoFonts
  | SvgFailure
  | FontFailure
deriving DecidableEq, Repr

/-- The data of the `usvg::Tree` built by `prepare` that this core
actually computes: canvas size and view rectangle. -/
structure PreparedTree where
  width : ℚ
  height : ℚ
  viewRect : Rect
deriving DecidableEq, Repr

/-- `LyonWriter::prepare`, on the bounding boxes of the writer's nodes
(the boxes themselves come from the external `calculate_bbox`): fold the
transformed corners, derive width/height with the `256.0` fallback, then
build the size and the view rectangle, reporting `WrongBoundingBox` with
the four raw folded scalars when either construction fails. -/
def prepare (bboxes : List (Option Rect)) (global_transform : Option SvgTransform) :
    Except LyonTranslationError PreparedTree :=
  let g := global_transform.getD SvgTransform.identity
  let bs := foldCorners bboxes g
  let width := dimension bs.min_x bs.max_x
  let height := dimension bs.min_y bs.max_y
  match sizeFromWh width height with
  | none => Except.error (LyonTranslationError.WrongBoundingBox bs.min_x bs.max_x bs.min_y bs.max_y)
  | some wh =>
    match nonZeroRectFromLtrb bs.min_x bs.min_y bs.max_x bs.max_y with
    | none =>
        Except.error (LyonTranslationError.WrongBoundingBox bs.min_x bs.max_x bs.min_y bs.max_y)
    | some r => Except.ok ⟨wh.1, wh.2, r⟩

/-- A translated path node, `usvg::Path`, restricted to the fields this
crate sets: command data, optional fill, optional stroke, and transform.
Fill and stroke contents are opaque payloads here, hence type parameters. -/
structure SvgPath (Fl St : Type) where
  data : List PathCommand
  fill : Option Fl
  stroke : Option St
  transform : SvgTransform
deriving DecidableEq, Repr

/-- `lyon_path_to_svg_with_attributes`: translate the path, then attach
fill, stroke and transform (the transform defaults to the identity when
absent, as `usvg::Path::default`). -/
def lyon_path_to_svg_with_attributes {Fl St : Type} (accept : List PathCommand → Bool)
    (events : List Event) (fill : Option Fl) (stroke : Option St)
    (transform : Option SvgTransform) : Option (SvgPath Fl St) :=
  match lyon_path_to_usvg accept events with
  | none => none
  | some d => some ⟨d, fill, stroke, transform.getD SvgTransform.identity⟩

/-- The `LyonWriter` state relevant to the claims: the ordered node list
(path nodes), the optional global transform, and the font database slot
(`NoText`, or `Option` of a provider, depending on the type parameter). -/
structure LyonWriter (Fl St T : Type) where
  nodes : List (SvgPath Fl St)
  global_transform : Option SvgTransform
  fontdb : T
deriving DecidableEq, Repr

/-- `LyonWriter::push` (mutating `&mut self` in the source, modelled as a
state transition): translate the path eagerly; on failure the `?` operator
returns `Err(SvgFailure)` before `self.nodes.push` runs, so the writer
state is returned unchanged; on success the node is appended. -/
def LyonWriter.push {Fl St T : Type} (w : LyonWriter Fl St T)
    (accept : List PathCommand → Bool) (events : List Event)
    (fill : Option Fl) (stroke : Option St) (transform : Option SvgTransform) :
    Except LyonTranslationError Unit × LyonWriter Fl St T :=
  match lyon_path_to_svg_with_attributes accept events fill stroke transform with
  | none => (Except.error LyonTranslationError.SvgFailure, w)
  | some p => (Except.ok (), ⟨w.nodes ++ [p], w.global_transform, w.fontdb⟩)

/-- The decision logic of `LyonWriter::<Option<T>>::write` up to the
external serialization: `self.fontdb.take().ok_or(NoFonts)?` runs first,
so an empty font slot fails with `NoFonts` before `prepare` is invoked on
the node bounds; with a font source present it proceeds to `prepare`. -/
def LyonWriter.writeWithText {T : Type} (fontdb : Option T)
    (bboxes : List (Option Rect)) (global_transform : Option SvgTransform) :
    Except LyonTranslationError PreparedTree :=
  match fontdb with
  | none => Except.error LyonTranslationError.NoFonts
  | some _ => prepare bboxes global_transform

/-- Line events of a continuous polyline: each segment starts where the
previous one ended, mirroring what the lyon path builder records. -/
def lineEvents : Point → List Point → List Event
  | _, [] => []
  | c, p :: ps => Event.Line c p :: lineEvents p ps

/-- The last point of the polyline `p :: ps`. -/
def lastPt : Point → List Point → Point
  | p, [] => p
  | _, p :: ps => lastPt p ps

/-- A single continuous closed subpath: `Begin`, a chain of `Line` events,
and `End(last, first, close=true)` with the truthful `last` and `first`. -/
def closedPolyline (p0 : Point) (ps : List Point) : List Event :=
  Event.Begin p0 :: (lineEvents p0 ps ++ [Event.End (lastPt p0 ps) p0 true])

theorem translateFrom_lineEvents (c : Point) (ps : List Point) (es2 : List Event) :
    translateFrom (some c) (lineEvents c ps ++ es2) =
      ps.map PathCommand.LineTo ++ translateFrom (some (lastPt c ps)) es2 := by
  induction ps generalizing c with
  | nil => simp [lineEvents, lastPt]
  | cons p ps ih => simp [lineEvents, lastPt, translateFrom, processEvent, repairMove, ih]

/-- C1: during translation, a `Line`, `Quadratic` or `Cubic` event whose
`from` differs (exact equality) from the present current point emits
exactly one extra `MoveTo(from)` immediately before its segment command,
raising the command count by exactly one compared with the continuous
case; with a matching `from` or no current point, no repair is emitted.
The current point and the remaining stream are arbitrary, so the
statement covers a discontinuity at any position in the stream. -/
theorem discontinuity_repair_per_event (c f t q q1 q2 : Point) (es : List Event) :
    (f ≠ c →
      translateFrom (some c) (Event.Line f t :: es) =
        PathCommand.MoveTo f :: PathCommand.LineTo t :: translateFrom (some t) es) ∧
    (translateFrom (some f) (Event.Line f t :: es) =
      PathCommand.LineTo t :: translateFrom (some t) es) ∧
    (translateFrom none (Event.Line f t :: es) =
      PathCommand.LineTo t :: translateFrom (some t) es) ∧
    (f ≠ c →
      (translateFrom (some c) (Event.Line f t :: es)).length =
        (translateFrom (some f) (Event.Line f t :: es)).length + 1) ∧
    (f ≠ c →
      translateFrom (some c) (Event.Quadratic f q t :: es) =
        PathCommand.MoveTo f :: PathCommand.QuadTo q t :: translateFrom (some t) es) ∧
    (translateFrom (some f) (Event.Quadratic f q t :: es) =
      PathCommand.QuadTo q t :: translateFrom (some t) es) ∧
    (translateFrom none (Event.Quadratic f q t :: es) =
      PathCommand.QuadTo q t :: translateFrom (some t) es) ∧
    (f ≠ c →
      (translateFrom (some c) (Event.Quadratic f q t :: es)).length =
        (translateFrom (some f) (Event.Quadratic f q t :: es)).length + 1) ∧
    (f ≠ c →
      translateFrom (some c) (Event.Cubic f q1 q2 t :: es) =
        PathCommand.MoveTo f :: PathCommand.CubicTo q1 q2 t :: translateFrom (some t) es) ∧
    (translateFrom (some f) (Event.Cubic f q1 q2 t :: es) =
      PathCommand.CubicTo q1 q2 t :: translateFrom (some t) es) ∧
    (translateFrom none (Event.Cubic f q1 q2 t :: es) =
      PathCommand.CubicTo q1 q2 t :: translateFrom (some t) es) ∧
    (f ≠ c →
      (translateFrom (some c) (Event.Cubic f q1 q2 t :: es)).length =
        (translateFrom (some f) (Event.Cubic f q1 q2 t :: es)).length + 1) := by
  refine ⟨?_, ?_, ?_, ?_, ?_, ?_, ?_, ?_, ?_, ?_, ?_, ?_⟩ <;>
    first
      | (intro h; simp [translateFrom, processEvent, repairMove, h])
      | simp [translateFrom, processEvent, repairMove]

/-- Witness for C1 at concrete points: the current point is `(0,0)`, the
line runs from `(1,0)` to `(2,0)`, so one repair `MoveTo` appears and the
output has one command more than the continuous translation. -/
theorem discontinuity_repair_per_event_witness :
    translateFrom (some (Point.mk 0 0)) [Event.Line (Point.mk 1 0) (Point.mk 2 0)] =
      [PathCommand.MoveTo (Point.mk 1 0), PathCommand.LineTo (Point.mk 2 0)] ∧
    (translateFrom (some (Point.mk 0 0)) [Event.Line (Point.mk 1 0) (Point.mk 2 0)]).length =
      (translateFrom (some (Point.mk 1 0)) [Event.Line (Point.mk 1 0) (Point.mk 2 0)]).length + 1 := by
  have h := discontinuity_repair_per_event (Point.mk 0 0) (Point.mk 1 0) (Point.mk 2 0)
    (Point.mk 0 0) (Point.mk 0 0) (Point.mk 0 0) []
  exact ⟨h.1 (by decide), h.2.2.2.1 (by decide)⟩

/-- C2: an `End{last, first, close}` event first emits the repair
`MoveTo(last)` exactly when a current point is present and differs from
`last`; then emits `LineTo(first)` followed by `Close` if and only if
`close` is true; and translation continues with the current point set to
`last` (also after the whole event list, per `finalState`). -/
theorem end_event_translation (l fst : Point) (cl : Bool) (cur : Option Point) (es : List Event) :
    translateFrom cur (Event.End l fst cl :: es) =
      (match cur with
        | some c => if l ≠ c then [PathCommand.MoveTo l] else []
        | none => []) ++
      (if cl then [PathCommand.LineTo fst, PathCommand.Close] else []) ++
      translateFrom (some l) es ∧
    finalState cur [Event.End l fst cl] = some l := by
  constructor
  · cases cur with
    | none => simp [translateFrom, processEvent, repairMove]
    | some c => simp [translateFrom, processEvent, repairMove]
  · simp [finalState, processEvent]

/-- C3: a single continuous closed subpath `Begin, Line, Line, End(close=true)`
over three points translates to exactly
`[MoveTo, LineTo, LineTo, LineTo, Close]`; in general a continuous closed
polyline with `n` line events yields `n + 3` commands: one `MoveTo`, the
`n` `LineTo`s, the explicit closing `LineTo` back to the first point, and
`Close` — i.e. the `n + 1` geometric segments of the closed subpath (the
`n` recorded lines plus the closing edge) plus the closing `LineTo` and
the `Close`, as in the repository's `lines_deserialize` expectation of 5
commands for the 2-line closed triangle. -/
theorem closed_polyline_translation (p0 p1 p2 : Point) (q0 : Point) (qs : List Point) :
    translateFrom none (closedPolyline p0 [p1, p2]) =
      [PathCommand.MoveTo p0, PathCommand.LineTo p1, PathCommand.LineTo p2,
       PathCommand.LineTo p0, PathCommand.Close] ∧
    (translateFrom none (closedPolyline q0 qs)).length = qs.length + 3 := by
  constructor
  · simp [closedPolyline, lineEvents, lastPt, translateFrom, processEvent, repairMove]
  · have h : translateFrom none (closedPolyline q0 qs) =
        PathCommand.MoveTo q0 :: (qs.map PathCommand.LineTo ++
          [PathCommand.LineTo q0, PathCommand.Close]) := by
      simp [closedPolyline, translateFrom, processEvent, translateFrom_lineEvents,
        repairMove]
    simp [h]

/-- C7: `lyon_path_to_usvg` returns `none` exactly when the downstream
command-sequence builder rejects the emitted commands, and otherwise
returns exactly those commands — for every event stream, including
degenerate or self-intersecting ones; and the empty event stream emits
the empty command sequence, so its fate rests solely on the builder's
validity rule. -/
theorem translation_failure_only_from_builder (accept : List PathCommand → Bool)
    (events : List Event) :
    (lyon_path_to_usvg accept events = none ↔ accept (translateFrom none events) = false) ∧
    (accept (translateFrom none events) = true →
      lyon_path_to_usvg accept events = some (translateFrom none events)) ∧
    translateFrom none ([] : List Event) = [] := by
  refine ⟨?_, ?_, rfl⟩ <;> simp [lyon_path_to_usvg, builderFinish]

/-- Witness for C7: a builder that rejects exactly the empty sequence
rejects the empty event stream's translation and accepts a one-line
subpath, returning its commands. -/
theorem translation_failure_only_from_builder_witness :
    lyon_path_to_usvg (fun l => !l.isEmpty) [] = none ∧
    lyon_path_to_usvg (fun l => !l.isEmpty)
        [Event.Begin (Point.mk 0 0), Event.Line (Point.mk 0 0) (Point.mk 1 1)] =
      some [PathCommand.MoveTo (Point.mk 0 0), PathCommand.LineTo (Point.mk 1 1)] := by
  constructor
  · exact (translation_failure_only_from_builder (fun l => !l.isEmpty) []).1.mpr (by decide)
  · exact (translation_failure_only_from_builder (fun l => !l.isEmpty)
      [Event.Begin (Point.mk 0 0), Event.Line (Point.mk 0 0) (Point.mk 1 1)]).2.1 (by decide)

/-- C8: a `Begin` event always emits a fresh `MoveTo` and resets the
current point regardless of the preceding state, so the translation of a
stream made of two `Begin…`-headed groups is the concatenation of the two
groups' independent translations: the second group's commands are exactly
what they would be in isolation, and depend on no point of the first. -/
theorem multi_subpath_independence (cur : Option Point) (a1 a2 : Point)
    (r1 r2 : List Event) :
    translateFrom cur ((Event.Begin a1 :: r1) ++ (Event.Begin a2 :: r2)) =
      translateFrom cur (Event.Begin a1 :: r1) ++
        translateFrom none (Event.Begin a2 :: r2) ∧
    (∀ cur2 : Option Point, translateFrom cur2 (Event.Begin a2 :: r2) =
      PathCommand.MoveTo a2 :: translateFrom (some a2) r2) := by
  constructor
  · rw [translateFrom_append]
    simp [translateFrom, processEvent]
  · intro cur2
    simp [translateFrom, processEvent]

theorem F.fmin_pinf_fin (q : ℚ) : F.fmin F.pinf (F.fin q) = F.fin q := by
  simp [F.fmin, F.le]

theorem F.fmax_ninf_fin (q : ℚ) : F.fmax F.ninf (F.fin q) = F.fin q := by
  simp [F.fmax, F.le]

theorem F.fmin_fin_fin (a b : ℚ) : F.fmin (F.fin a) (F.fin b) = F.fin (min a b) := by
  simp only [F.fmin, F.le, min_def]
  split <;> rename_i h <;> simp only [decide_eq_true_eq] at h <;> simp [h]

theorem F.fmax_fin_fin (a b : ℚ) : F.fmax (F.fin a) (F.fin b) = F.fin (max a b) := by
  simp only [F.fmax, F.le, max_def]
  split <;> rename_i h <;> simp only [decide_eq_true_eq] at h <;> simp [h]

theorem F.le_fmin_right (a : F) (q : ℚ) : F.le (F.fmin a (F.fin q)) (F.fin q) = true := by
  cases a with
  | nan => simp [F.fmin, F.le]
  | pinf => simp [F.fmin, F.le]
  | ninf => simp [F.fmin, F.le]
  | fin b =>
    rw [F.fmin_fin_fin]
    simp [F.le, min_le_right]

theorem F.le_fmax_right (a : F) (q : ℚ) : F.le (F.fin q) (F.fmax a (F.fin q)) = true := by
  cases a with
  | nan => simp [F.fmax, F.le]
  | pinf => simp [F.fmax, F.le]
  | ninf => simp [F.fmax, F.le]
  | fin b =>
    rw [F.fmax_fin_fin]
    simp [F.le, le_max_right]

theorem F.le_fmin_mono (a b : F) (q : ℚ) (h : F.le a (F.fin q) = true) :
    F.le (F.fmin a b) (F.fin q) = true := by
  cases a with
  | nan => simp [F.le] at h
  | pinf => simp [F.le] at h
  | ninf =>
    cases b with
    | nan => simpa [F.fmin] using h
    | pinf => simp [F.fmin, F.le]
    | ninf => simp [F.fmin, F.le]
    | fin y => simp [F.fmin, F.le]
  | fin x =>
    cases b with
    | nan => simpa [F.fmin] using h
    | pinf => simpa [F.fmin, F.le] using h
    | ninf => simp [F.fmin, F.le]
    | fin y =>
      rw [F.fmin_fin_fin]
      simp only [F.le, decide_eq_true_eq] at h ⊢
      exact le_trans (min_le_left x y) h

theorem F.le_fmax_mono (a b : F) (q : ℚ) (h : F.le (F.fin q) a = true) :
    F.le (F.fin q) (F.fmax a b) = true := by
  cases a with
  | nan => simp [F.le] at h
  | ninf => simp [F.le] at h
  | pinf =>
    cases b with
    | nan => simpa [F.fmax] using h
    | pinf => simp [F.fmax, F.le]
    | ninf => simp [F.fmax, F.le]
    | fin y => simp [F.fmax, F.le]
  | fin x =>
    cases b with
    | nan => simpa [F.fmax] using h
    | pinf => simp [F.fmax, F.le]
    | ninf => simpa [F.fmax, F.le] using h
    | fin y =>
      rw [F.fmax_fin_fin]
      simp only [F.le, decide_eq_true_eq] at h ⊢
      exact le_trans h (le_max_left x y)

theorem foldl_minx_le (pts : List Point) (acc : Bounds4) (q : ℚ)
    (h : F.le acc.min_x (F.fin q) = true) :
    F.le (pts.foldl boundsStep acc).min_x (F.fin q) = true := by
  induction pts generalizing acc with
  | nil => exact h
  | cons p ps ih => exact ih (boundsStep acc p) (F.le_fmin_mono _ _ _ h)

theorem foldl_maxx_ge (pts : List Point) (acc : Bounds4) (q : ℚ)
    (h : F.le (F.fin q) acc.max_x = true) :
    F.le (F.fin q) (pts.foldl boundsStep acc).max_x = true := by
  induction pts generalizing acc with
  | nil => exact h
  | cons p ps ih => exact ih (boundsStep acc p) (F.le_fmax_mono _ _ _ h)

theorem foldl_miny_le (pts : List Point) (acc : Bounds4) (q : ℚ)
    (h : F.le acc.min_y (F.fin q) = true) :
    F.le (pts.foldl boundsStep acc).min_y (F.fin q) = true := by
  induction pts generalizing acc with
  | nil => exact h
  | cons p ps ih => exact ih (boundsStep acc p) (F.le_fmin_mono _ _ _ h)

theorem foldl_maxy_ge (pts : List Point) (acc : Bounds4) (q : ℚ)
    (h : F.le (F.fin q) acc.max_y = true) :
    F.le (F.fin q) (pts.foldl boundsStep acc).max_y = true := by
  induction pts generalizing acc with
  | nil => exact h
  | cons p ps ih => exact ih (boundsStep acc p) (F.le_fmax_mono _ _ _ h)

theorem foldl_bounds_contains (pts : List Point) (acc : Bounds4) (p : Point)
    (hp : p ∈ pts) :
    F.le (pts.foldl boundsStep acc).min_x (F.fin p.x) = true ∧
    F.le (F.fin p.x) (pts.foldl boundsStep acc).max_x = true ∧
    F.le (pts.foldl boundsStep acc).min_y (F.fin p.y) = true ∧
    F.le (F.fin p.y) (pts.foldl boundsStep acc).max_y = true := by
  induction pts generalizing acc with
  | nil => cases hp
  | cons a as ih =>
    cases hp with
    | head =>
      refine ⟨foldl_minx_le as (boundsStep acc p) p.x (F.le_fmin_right _ _),
        foldl_maxx_ge as (boundsStep acc p) p.x (F.le_fmax_right _ _),
        foldl_miny_le as (boundsStep acc p) p.y (F.le_fmin_right _ _),
        foldl_maxy_ge as (boundsStep acc p) p.y (F.le_fmax_right _ _)⟩
    | tail _ h => exact ih (boundsStep acc a) h

theorem mem_cornerPoints (bboxes : List (Option Rect)) (g : SvgTransform) (b : Rect)
    (p : Point) (hb : some b ∈ bboxes)
    (hp : p ∈ [Point.mk b.left b.top, Point.mk b.right b.top,
      Point.mk b.left b.bottom, Point.mk b.right b.bottom]) :
    g.mapPoint p ∈ cornerPoints bboxes g := by
  simp only [cornerPoints, List.mem_flatMap, List.mem_filterMap, List.mem_map]
  exact ⟨b, ⟨some b, hb, rfl⟩, p, hp, rfl⟩

/-- A 90-degree rotation, `Transform::from_rotate(90.0)`, with its exact
trigonometric entries. -/
def rot90 : SvgTransform := ⟨0, -1, 1, 0, 0, 0⟩

/-- C4: the bounds computer folds the images of all four corners of every
present local bounding box under the full global transform into the
running min/max accumulator seeded at `(+inf, -inf, +inf, -inf)`: every
transformed corner of every primitive lies inside the folded bounds; for
a single primitive the folded bounds are exactly the min/max of its four
transformed corners; and for local bounds `(0,0)-(1,1)` under a
90-degree rotation, the resulting view rectangle is the rotated square's
axis-aligned bounding box `(-1,0)-(0,1)` with span `1 x 1`, not the
untransformed square `(0,0)-(1,1)`. -/
theorem bounds_transform_correctness :
    (∀ (bboxes : List (Option Rect)) (g : SvgTransform) (b : Rect) (p : Point),
      some b ∈ bboxes →
      p ∈ [Point.mk b.left b.top, Point.mk b.right b.top,
        Point.mk b.left b.bottom, Point.mk b.right b.bottom] →
      (F.le (foldCorners bboxes g).min_x (F.fin (g.mapPoint p).x) = true ∧
       F.le (F.fin (g.mapPoint p).x) (foldCorners bboxes g).max_x = true ∧
       F.le (foldCorners bboxes g).min_y (F.fin (g.mapPoint p).y) = true ∧
       F.le (F.fin (g.mapPoint p).y) (foldCorners bboxes g).max_y = true)) ∧
    (∀ (b : Rect) (g : SvgTransform),
      foldCorners [some b] g =
        Bounds4.mk
          (F.fin (min (min (min (g.mapPoint (Point.mk b.left b.top)).x
            (g.mapPoint (Point.mk b.right b.top)).x)
            (g.mapPoint (Point.mk b.left b.bottom)).x)
            (g.mapPoint (Point.mk b.right b.bottom)).x))
          (F.fin (max (max (max (g.mapPoint (Point.mk b.left b.top)).x
            (g.mapPoint (Point.mk b.right b.top)).x)
            (g.mapPoint (Point.mk b.left b.bottom)).x)
            (g.mapPoint (Point.mk b.right b.bottom)).x))
          (F.fin (min (min (min (g.mapPoint (Point.mk b.left b.top)).y
            (g.mapPoint (Point.mk b.right b.top)).y)
            (g.mapPoint (Point.mk b.left b.bottom)).y)
            (g.mapPoint (Point.mk b.right b.bottom)).y))
          (F.fin (max (max (max (g.mapPoint (Point.mk b.left b.top)).y
            (g.mapPoint (Point.mk b.right b.top)).y)
            (g.mapPoint (Point.mk b.left b.bottom)).y)
            (g.mapPoint (Point.mk b.right b.bottom)).y))) ∧
    prepare [some (Rect.mk 0 0 1 1)] (some rot90) =
      Except.ok (PreparedTree.mk 1 1 (Rect.mk (-1) 0 0 1)) ∧
    prepare [some (Rect.mk 0 0 1 1)] (some rot90) ≠
      Except.ok (PreparedTree.mk 1 1 (Rect.mk 0 0 1 1)) := by
  refine ⟨?_, ?_, ?_, ?_⟩
  · intro bboxes g b p hb hp
    exact foldl_bounds_contains (cornerPoints bboxes g) boundsSeed (g.mapPoint p)
      (mem_cornerPoints bboxes g b p hb hp)
  · intro b g
    simp [foldCorners, cornerPoints, List.filterMap, List.flatMap, List.map, List.foldl,
      boundsStep, boundsSeed, F.fmin_pinf_fin, F.fmax_ninf_fin, F.fmin_fin_fin,
      F.fmax_fin_fin, min_assoc, max_assoc]
  · norm_num [prepare, foldCorners, cornerPoints, boundsStep, boundsSeed,
      SvgTransform.mapPoint, rot90, F.fmin, F.fmax, F.le, dimension, F.sub, F.lt,
      sizeFromWh, nonZeroRectFromLtrb, List.filterMap, List.flatMap, List.foldl, List.map]
  · norm_num [prepare, foldCorners, cornerPoints, boundsStep, boundsSeed,
      SvgTransform.mapPoint, rot90, F.fmin, F.fmax, F.le, dimension, F.sub, F.lt,
      sizeFromWh, nonZeroRectFromLtrb, List.filterMap, List.flatMap, List.foldl, List.map]

/-- Witness for C4 at a concrete input: the corner `(1,1)` of the unit
square, mapped through the 90-degree rotation, lies inside the bounds
folded for the single-primitive collection. -/
theorem bounds_transform_correctness_witness :
    F.le (foldCorners [some (Rect.mk 0 0 1 1)] rot90).min_x
      (F.fin (rot90.mapPoint (Point.mk 1 1)).x) = true ∧
    F.le (F.fin (rot90.mapPoint (Point.mk 1 1)).x)
      (foldCorners [some (Rect.mk 0 0 1 1)] rot90).max_x = true := by
  have h := bounds_transform_correctness.1 [some (Rect.mk 0 0 1 1)] rot90
    (Rect.mk 0 0 1 1) (Point.mk 1 1) (by decide) (by decide)
  exact ⟨h.1, h.2.1⟩

theorem sizeFromWh_eq_some {a b : F} {wh : ℚ × ℚ} (h : sizeFromWh a b = some wh) :
    a = F.fin wh.1 ∧ b = F.fin wh.2 := by
  cases a with
  | nan => simp [sizeFromWh] at h
  | pinf => simp [sizeFromWh] at h
  | ninf => simp [sizeFromWh] at h
  | fin wq =>
    cases b with
    | nan => simp [sizeFromWh] at h
    | pinf => simp [sizeFromWh] at h
    | ninf => simp [sizeFromWh] at h
    | fin hq =>
      simp only [sizeFromWh] at h
      split at h
      · cases h
        exact ⟨rfl, rfl⟩
      · cases h

theorem nonZeroRectFromLtrb_eq_some {l t r b : F} {rc : Rect}
    (h : nonZeroRectFromLtrb l t r b = some rc) :
    l = F.fin rc.left ∧ t = F.fin rc.top ∧ r = F.fin rc.right ∧ b = F.fin rc.bottom ∧
    rc.left < rc.right ∧ rc.top < rc.bottom := by
  cases l <;> cases t <;> cases r <;> cases b <;> simp [nonZeroRectFromLtrb] at h
  obtain ⟨⟨h1, h2⟩, he⟩ := h
  subst he
  exact ⟨rfl, rfl, rfl, rfl, h1, h2⟩

theorem prepare_cases (bboxes : List (Option Rect)) (gt : Option SvgTransform) :
    prepare bboxes gt =
      (match sizeFromWh
          (dimension (foldCorners bboxes (gt.getD SvgTransform.identity)).min_x
            (foldCorners bboxes (gt.getD SvgTransform.identity)).max_x)
          (dimension (foldCorners bboxes (gt.getD SvgTransform.identity)).min_y
            (foldCorners bboxes (gt.getD SvgTransform.identity)).max_y) with
        | none => Except.error (LyonTranslationError.WrongBoundingBox
            (foldCorners bboxes (gt.getD SvgTransform.identity)).min_x
            (foldCorners bboxes (gt.getD SvgTransform.identity)).max_x
            (foldCorners bboxes (gt.getD SvgTransform.identity)).min_y
            (foldCorners bboxes (gt.getD SvgTransform.identity)).max_y)
        | some wh =>
          match nonZeroRectFromLtrb
              (foldCorners bboxes (gt.getD SvgTransform.identity)).min_x
              (foldCorners bboxes (gt.getD SvgTransform.identity)).min_y
              (foldCorners bboxes (gt.getD SvgTransform.identity)).max_x
              (foldCorners bboxes (gt.getD SvgTransform.identity)).max_y with
          | none => Except.error (LyonTranslationError.WrongBoundingBox
              (foldCorners bboxes (gt.getD SvgTransform.identity)).min_x
              (foldCorners bboxes (gt.getD SvgTransform.identity)).max_x
              (foldCorners bboxes (gt.getD SvgTransform.identity)).min_y
              (foldCorners bboxes (gt.getD SvgTransform.identity)).max_y)
          | some r => Except.ok (PreparedTree.mk wh.1 wh.2 r)) := rfl

/-- C5 counterexample: on the empty primitive collection with no (hence
identity) global transform, `prepare` does not return a `256 x 256`
result — it fails with `WrongBoundingBox` carrying the infinite seeds,
because no view rectangle is constructible from them. -/
theorem empty_collection_finalize_fails :
    prepare [] none =
      Except.error (LyonTranslationError.WrongBoundingBox F.pinf F.ninf F.pinf F.ninf) := by
  rfl

/-- C5 (amended): whenever `prepare` succeeds, its width is
`max_x - min_x` when that difference is strictly positive and `256.0`
otherwise, and its height is computed the same way, independently, from
`max_y - min_y`; on the empty collection with identity transform both
computed scalars are `256.0`, but finalize then fails with
`WrongBoundingBox` instead of delivering them, since the infinite raw
bounds admit no view rectangle. -/
theorem width_height_fallback (bboxes : List (Option Rect)) (gt : Option SvgTransform) :
    (∀ (w h : ℚ) (r : Rect), prepare bboxes gt = Except.ok (PreparedTree.mk w h r) →
      F.fin w = dimension (foldCorners bboxes (gt.getD SvgTransform.identity)).min_x
          (foldCorners bboxes (gt.getD SvgTransform.identity)).max_x ∧
      F.fin h = dimension (foldCorners bboxes (gt.getD SvgTransform.identity)).min_y
          (foldCorners bboxes (gt.getD SvgTransform.identity)).max_y) ∧
    (∀ mn mx : F, dimension mn mx =
      if F.lt (F.fin 0) (mx.sub mn) then mx.sub mn else F.fin 256) ∧
    dimension (foldCorners [] SvgTransform.identity).min_x
      (foldCorners [] SvgTransform.identity).max_x = F.fin 256 ∧
    dimension (foldCorners [] SvgTransform.identity).min_y
      (foldCorners [] SvgTransform.identity).max_y = F.fin 256 ∧
    prepare [] none =
      Except.error (LyonTranslationError.WrongBoundingBox F.pinf F.ninf F.pinf F.ninf) := by
  refine ⟨?_, fun mn mx => rfl, by rfl, by rfl, by rfl⟩
  intro w h r hok
  rw [prepare_cases] at hok
  cases hs : sizeFromWh
      (dimension (foldCorners bboxes (gt.getD SvgTransform.identity)).min_x
        (foldCorners bboxes (gt.getD SvgTransform.identity)).max_x)
      (dimension (foldCorners bboxes (gt.getD SvgTransform.identity)).min_y
        (foldCorners bboxes (gt.getD SvgTransform.identity)).max_y) with
  | none =>
    rw [hs] at hok
    simp at hok
  | some wh =>
    rw [hs] at hok
    cases hr : nonZeroRectFromLtrb
        (foldCorners bboxes (gt.getD SvgTransform.identity)).min_x
        (foldCorners bboxes (gt.getD SvgTransform.identity)).min_y
        (foldCorners bboxes (gt.getD SvgTransform.identity)).max_x
        (foldCorners bboxes (gt.getD SvgTransform.identity)).max_y with
    | none =>
      rw [hr] at hok
      simp at hok
    | some rc =>
      rw [hr] at hok
      simp only [Except.ok.injEq, PreparedTree.mk.injEq] at hok
      obtain ⟨hw, hh, -⟩ := hok
      obtain ⟨ha, hb⟩ := sizeFromWh_eq_some hs
      rw [← hw, ← hh]
      exact ⟨ha.symm, hb.symm⟩

/-- Witness for C5 (amended) at a concrete input: for the single unit
box with no global transform, `prepare` succeeds with width 1 and
height 1, matching the fallback formula on the folded bounds. -/
theorem width_height_fallback_witness :
    F.fin 1 = dimension
        (foldCorners [some (Rect.mk 0 0 1 1)]
          ((none : Option SvgTransform).getD SvgTransform.identity)).min_x
        (foldCorners [some (Rect.mk 0 0 1 1)]
          ((none : Option SvgTransform).getD SvgTransform.identity)).max_x := by
  have h := (width_height_fallback [some (Rect.mk 0 0 1 1)] none).1 1 1 (Rect.mk 0 0 1 1)
    (by norm_num [prepare, foldCorners, cornerPoints, boundsStep, boundsSeed,
      SvgTransform.mapPoint, SvgTransform.identity, F.fmin, F.fmax, F.le, dimension,
      F.sub, F.lt, sizeFromWh, nonZeroRectFromLtrb, List.filterMap, List.flatMap,
      List.foldl, List.map])
  exact h.1

/-- C6: the view rectangle is constructed directly from the raw folded
`(min_x, min_y, max_x, max_y)` scalars — when construction succeeds the
result carries exactly that rectangle (and its spans as width/height,
untouched by any fallback) — and whenever no positive-area rectangle can
be built from the raw scalars, `prepare` fails with `WrongBoundingBox`
reporting those four raw scalars; in particular a single degenerate
point-sized box makes the scalar fallback fire yet finalize still fails,
because the fallback patches only width/height, never the rectangle. -/
theorem view_rect_from_raw_bounds (bboxes : List (Option Rect)) (gt : Option SvgTransform) :
    (nonZeroRectFromLtrb (foldCorners bboxes (gt.getD SvgTransform.identity)).min_x
        (foldCorners bboxes (gt.getD SvgTransform.identity)).min_y
        (foldCorners bboxes (gt.getD SvgTransform.identity)).max_x
        (foldCorners bboxes (gt.getD SvgTransform.identity)).max_y = none →
      prepare bboxes gt = Except.error (LyonTranslationError.WrongBoundingBox
        (foldCorners bboxes (gt.getD SvgTransform.identity)).min_x
        (foldCorners bboxes (gt.getD SvgTransform.identity)).max_x
        (foldCorners bboxes (gt.getD SvgTransform.identity)).min_y
        (foldCorners bboxes (gt.getD SvgTransform.identity)).max_y)) ∧
    (∀ r : Rect, nonZeroRectFromLtrb (foldCorners bboxes (gt.getD SvgTransform.identity)).min_x
        (foldCorners bboxes (gt.getD SvgTransform.identity)).min_y
        (foldCorners bboxes (gt.getD SvgTransform.identity)).max_x
        (foldCorners bboxes (gt.getD SvgTransform.identity)).max_y = some r →
      prepare bboxes gt =
        Except.ok (PreparedTree.mk (r.right - r.left) (r.bottom - r.top) r)) ∧
    prepare [some (Rect.mk 2 3 2 3)] none =
      Except.error (LyonTranslationError.WrongBoundingBox
        (F.fin 2) (F.fin 2) (F.fin 3) (F.fin 3)) := by
  refine ⟨?_, ?_, ?_⟩
  · intro hnone
    rw [prepare_cases]
    cases hs : sizeFromWh
        (dimension (foldCorners bboxes (gt.getD SvgTransform.identity)).min_x
          (foldCorners bboxes (gt.getD SvgTransform.identity)).max_x)
        (dimension (foldCorners bboxes (gt.getD SvgTransform.identity)).min_y
          (foldCorners bboxes (gt.getD SvgTransform.identity)).max_y) with
    | none => rfl
    | some wh =>
      rw [hnone]
  · intro r hr
    obtain ⟨h1, h2, h3, h4, h5, h6⟩ := nonZeroRectFromLtrb_eq_some hr
    have hr2 := hr
    rw [h1, h2, h3, h4] at hr2
    have hw : dimension (F.fin r.left) (F.fin r.right) = F.fin (r.right - r.left) := by
      simp [dimension, F.sub, F.lt, sub_pos.mpr h5]
    have hh : dimension (F.fin r.top) (F.fin r.bottom) = F.fin (r.bottom - r.top) := by
      simp [dimension, F.sub, F.lt, sub_pos.mpr h6]
    have hsz : sizeFromWh (F.fin (r.right - r.left)) (F.fin (r.bottom - r.top)) =
        some (r.right - r.left, r.bottom - r.top) := by
      simp [sizeFromWh, sub_pos.mpr h5, sub_pos.mpr h6]
    rw [prepare_cases, h1, h2, h3, h4, hw, hh, hsz, hr2]
  · norm_num [prepare, foldCorners, cornerPoints, boundsStep, boundsSeed,
      SvgTransform.mapPoint, SvgTransform.identity, F.fmin, F.fmax, F.le, dimension,
      F.sub, F.lt, sizeFromWh, nonZeroRectFromLtrb, List.filterMap, List.flatMap,
      List.foldl, List.map]

/-- Witness for C6 at a concrete input: on the empty collection the raw
folded scalars are the infinite seeds, no rectangle is constructible, and
`prepare` reports exactly those scalars. -/
theorem view_rect_from_raw_bounds_witness :
    prepare ([] : List (Option Rect)) none =
      Except.error (LyonTranslationError.WrongBoundingBox
        (foldCorners [] ((none : Option SvgTransform).getD SvgTransform.identity)).min_x
        (foldCorners [] ((none : Option SvgTransform).getD SvgTransform.identity)).max_x
        (foldCorners [] ((none : Option SvgTransform).getD SvgTransform.identity)).min_y
        (foldCorners [] ((none : Option SvgTransform).getD SvgTransform.identity)).max_y) :=
  (view_rect_from_raw_bounds [] none).1 (by rfl)

/-- C9: finalizing a text-capable writer whose font database slot is
empty fails with `NoFonts`, whatever the node bounds and global transform
are — in particular before and independently of any bounds computation —
while a present font source proceeds exactly to `prepare`. -/
theorem write_without_fonts_fails (T : Type) (bboxes : List (Option Rect))
    (gt : Option SvgTransform) :
    LyonWriter.writeWithText (none : Option T) bboxes gt =
      Except.error LyonTranslationError.NoFonts ∧
    (∀ d : T, LyonWriter.writeWithText (some d) bboxes gt = prepare bboxes gt) := by
  exact ⟨rfl, fun d => rfl⟩

/-- C10: when translation of the pushed path fails, `push` returns
`Err(SvgFailure)` and the writer is exactly as before the call: the node
list, the global transform and the font slot are all unchanged. -/
theorem push_failure_leaves_writer_unchanged {Fl St T : Type} (w : LyonWriter Fl St T)
    (accept : List PathCommand → Bool) (events : List Event) (fill : Option Fl)
    (stroke : Option St) (tr : Option SvgTransform)
    (h : lyon_path_to_usvg accept events = none) :
    LyonWriter.push w accept events fill stroke tr =
      (Except.error LyonTranslationError.SvgFailure, w) ∧
    (LyonWriter.push w accept events fill stroke tr).2.nodes = w.nodes ∧
    (LyonWriter.push w accept events fill stroke tr).2.global_transform =
      w.global_transform := by
  have hp : lyon_path_to_svg_with_attributes accept events fill stroke tr =
      (none : Option (SvgPath Fl St)) := by
    simp [lyon_path_to_svg_with_attributes, h]
  refine ⟨?_, ?_, ?_⟩ <;> simp [LyonWriter.push, hp]

/-- Witness for C10 at a concrete input: with a builder rejecting empty
command sequences, pushing an empty path into a writer leaves the writer
exactly as it was and reports `SvgFailure`. -/
theorem push_failure_leaves_writer_unchanged_witness :
    LyonWriter.push (LyonWriter.mk ([] : List (SvgPath Unit Unit)) none ())
        (fun l => !l.isEmpty) [] none none none =
      (Except.error LyonTranslationError.SvgFailure,
        LyonWriter.mk ([] : List (SvgPath Unit Unit)) none ()) :=
  (push_failure_leaves_writer_unchanged (LyonWriter.mk ([] : List (SvgPath Unit Unit)) none ())
    (fun l => !l.isEmpty) [] none none none (by decide)).1
